import Mathlib

/-
Verification of the multipart form parser of `bentoml/_internal/utils/formparser.py`:
the streaming decode of a `multipart/form-data` body into named `FormItem`s, the
construction of per-field sub-requests (`populate_multipart_requests`), and the
response merger (`concat_to_multipart_responses`).

Bytes are modelled as `List Nat`; Python byte strings as lists of their byte values.
The external decoder (`multipart.MultipartParser` of the python-multipart library) and
the helpers `parse_options_header` / `_user_safe_decode` are not part of this
repository's sources; they are modelled from the specification (each such definition
carries a doc comment saying so).  Everything else is translated directly from
`formparser.py`.
-/

namespace FormParser

/-- Byte strings are lists of byte values. -/
abbrev Bytes := List Nat

/-- Literal byte string helper: code points of an ASCII string literal. -/
def strBytes (s : String) : Bytes := s.data.map Char.toNat

/-- Python bytes.lower on a single byte: ASCII uppercase is shifted to lowercase. -/
def lowerByte (b : Nat) : Nat := if 65 ≤ b ∧ b ≤ 90 then b + 32 else b

/-- Python bytes.lower over a byte string. -/
def bytesLower (bs : Bytes) : Bytes := bs.map lowerByte

/-- Split a byte string on a separator byte (the separator is dropped). -/
def splitOnByte (sep : Nat) : Bytes → List Bytes
  | [] => [[]]
  | b :: rest =>
      let r := splitOnByte sep rest
      if b = sep then [] :: r
      else
        match r with
        | [] => [[b]]
        | x :: xs => (b :: x) :: xs

/-- Strip leading and trailing ASCII spaces. -/
def trimSp (bs : Bytes) : Bytes :=
  ((bs.dropWhile (fun b => b = 32)).reverse.dropWhile (fun b => b = 32)).reverse

/-- Strip one layer of surrounding double quotes, when present. -/
def stripQuotes (bs : Bytes) : Bytes :=
  match bs with
  | 34 :: rest =>
      if rest ≠ [] ∧ rest.getLast? = some 34 then rest.dropLast else bs
  | _ => bs

/-- Split a byte string at its first equals sign. -/
def splitEq : Bytes → Option (Bytes × Bytes)
  | [] => none
  | b :: rest =>
      if b = 61 then some ([], rest)
      else (splitEq rest).map (fun p => (b :: p.1, p.2))

/-- Parse one `key=value` parameter: lowercased trimmed key, unquoted trimmed value. -/
def parseParam (bs : Bytes) : Option (Bytes × Bytes) :=
  (splitEq bs).map (fun p => (bytesLower (trimSp p.1), stripQuotes (trimSp p.2)))

/-- Modelled from the spec: `multipart.parse_options_header` (python-multipart helper,
not in this repository's sources).  A header value `type; k1=v1; k2=v2` is parsed into
the lowercased media type and its parameter list; a missing header gives empty results. -/
def parse_options_header : Option Bytes → Bytes × List (Bytes × Bytes)
  | none => ([], [])
  | some bs =>
      match splitOnByte 59 bs with
      | [] => ([], [])
      | t :: ps => (bytesLower (trimSp t), ps.filterMap parseParam)

/-- Parameter lookup in the parsed options (`params.get(key)`). -/
def lookupBytes (k : Bytes) (ps : List (Bytes × Bytes)) : Option Bytes :=
  (ps.find? (fun p => p.1 = k)).map (fun p => p.2)

/-- Message kinds of `starlette.formparsers.MultiPartMessage`. -/
inductive MultiPartMessage where
  | PART_BEGIN
  | HEADER_FIELD
  | HEADER_VALUE
  | HEADER_END
  | HEADERS_FINISHED
  | PART_DATA
  | PART_END
  | END
deriving DecidableEq, Repr

/-- Entries of `MultiPartParser.messages`: a message kind with its payload bytes. -/
abbrev Msg := MultiPartMessage × Bytes

/-- Error kinds observable from the parse path, standing for the Python exception
classes that can escape: `multipart.MultipartParseError`, `KeyError` (mapping subscript
with an absent key), `AssertionError` (a failed `assert`), and
`BentoMLException("Invalid multipart requests")`. -/
inductive PyErr where
  | MultipartParseError
  | KeyError
  | AssertionError
  | BentoMLException
deriving DecidableEq, Repr

/-- Decoder states.  Modelled from the spec: the Event Decoder state machine of the
python-multipart `MultipartParser`, which is not in this repository's sources. -/
inductive DecState where
  | start (i : Nat)
  | headerStart
  | headerField
  | headerValueStart
  | headerValue
  | headerValueAlmostDone
  | headersAlmostDone
  | partData (held : Bytes)
  | epilogue
deriving DecidableEq, Repr

/-- First boundary line of the stream: `--boundary` CRLF. -/
def firstLine (b : Bytes) : Bytes := 45 :: 45 :: (b ++ [13, 10])

/-- Inter-part delimiter line: CRLF `--boundary` CRLF. -/
def delimNext (b : Bytes) : Bytes := 13 :: 10 :: 45 :: 45 :: (b ++ [13, 10])

/-- Terminal delimiter: CRLF `--boundary` `--`. -/
def delimEnd (b : Bytes) : Bytes := 13 :: 10 :: 45 :: 45 :: (b ++ [45, 45])

/-- A held lookahead is live while it prefixes one of the two delimiter forms. -/
def heldOk (b : Bytes) (s : Bytes) : Bool :=
  s.isPrefixOf (delimNext b) || s.isPrefixOf (delimEnd b)

/-- Flush a dead lookahead: emit the longest front part whose remainder is again a
live lookahead, and keep that remainder held. -/
def splitHeld (b : Bytes) : Bytes → Bytes × Bytes
  | [] => ([], [])
  | c :: rest =>
      if heldOk b (c :: rest) then ([], c :: rest)
      else
        let p := splitHeld b rest
        (c :: p.1, p.2)

/-- Modelled from the spec: one byte of the Event Decoder (python-multipart
`MultipartParser._internal_write`, not in this repository's sources).  It recognizes the
first boundary line, header `name:value` lines terminated by CRLF, the blank line ending
a header section, payload bytes up to the next delimiter (lookahead is buffered and no
event is emitted for a non-terminated match), and the terminal `--boundary--`;
structurally invalid framing is a fatal `MultipartParseError`. -/
def stepByte (b : Bytes) (st : DecState) (c : Nat) : Except PyErr (DecState × List Msg) :=
  match st with
  | .start i =>
      if (firstLine b).get? i = some c then
        if i + 1 = (firstLine b).length then .ok (.headerStart, [(.PART_BEGIN, [])])
        else .ok (.start (i + 1), [])
      else .error .MultipartParseError
  | .headerStart =>
      if c = 13 then .ok (.headersAlmostDone, [])
      else if c = 10 ∨ c = 58 then .error .MultipartParseError
      else .ok (.headerField, [(.HEADER_FIELD, [c])])
  | .headerField =>
      if c = 58 then .ok (.headerValueStart, [])
      else if c = 13 ∨ c = 10 then .error .MultipartParseError
      else .ok (.headerField, [(.HEADER_FIELD, [c])])
  | .headerValueStart =>
      if c = 32 then .ok (.headerValueStart, [])
      else if c = 13 then .ok (.headerValueAlmostDone, [])
      else if c = 10 then .error .MultipartParseError
      else .ok (.headerValue, [(.HEADER_VALUE, [c])])
  | .headerValue =>
      if c = 13 then .ok (.headerValueAlmostDone, [])
      else if c = 10 then .error .MultipartParseError
      else .ok (.headerValue, [(.HEADER_VALUE, [c])])
  | .headerValueAlmostDone =>
      if c = 10 then .ok (.headerStart, [(.HEADER_END, [])])
      else .error .MultipartParseError
  | .headersAlmostDone =>
      if c = 10 then .ok (.partData [], [(.HEADERS_FINISHED, [])])
      else .error .MultipartParseError
  | .partData held =>
      let s := held ++ [c]
      if s = delimNext b then .ok (.headerStart, [(.PART_END, []), (.PART_BEGIN, [])])
      else if s = delimEnd b then .ok (.epilogue, [(.PART_END, []), (.END, [])])
      else if heldOk b s then .ok (.partData s, [])
      else
        let p := splitHeld b s
        .ok (.partData p.2, [(.PART_DATA, p.1)])
  | .epilogue => .ok (.epilogue, [])

/-- Feeding one chunk to the decoder (`parser.write(chunk)`): the bytes are consumed in
order and the emitted messages are concatenated. -/
def feedBytes (b : Bytes) : DecState → Bytes → Except PyErr (DecState × List Msg)
  | st, [] => .ok (st, [])
  | st, c :: rest =>
      match stepByte b st c with
      | .error e => .error e
      | .ok (st1, ms1) =>
          match feedBytes b st1 rest with
          | .error e => .error e
          | .ok (st2, ms2) => .ok (st2, ms1 ++ ms2)

/-- Terminal decoder state: the final boundary has been seen. -/
def isTerminal : DecState → Bool
  | .epilogue => true
  | _ => false

/-- Header lists as kept by the parser: `(name, value)` byte pairs. -/
abbrev HeaderList := List (Bytes × Bytes)

/-- Decoded items `(field_name, headers, data)` as produced by `MultiPartParser.parse`. -/
abbrev FormItem := String × HeaderList × Bytes

/-- Modelled from the spec: `starlette.formparsers._user_safe_decode` (not in this
repository's sources) decodes header bytes into text; the model decodes bytewise and
carries the charset argument without using it. -/
def user_safe_decode (bs : Bytes) (charset : Bytes) : String :=
  let _ := charset
  String.mk (bs.map Char.ofNat)

/-- Byte string `content-disposition`. -/
def contentDispositionBytes : Bytes := strBytes "content-disposition"

/-- Accumulator state of the message loop in `MultiPartParser.parse`
(`header_field`, `header_value`, `content_disposition`, `field_name`, `data`,
`headers`, `items` of the source). -/
structure PState where
  header_field : Bytes := []
  header_value : Bytes := []
  content_disposition : Option Bytes := none
  field_name : String := ""
  data : Bytes := []
  headers : HeaderList := []
  items : List FormItem := []
deriving DecidableEq, Repr

/-- One iteration of the message loop of `MultiPartParser.parse` (source lines
106-130): the branch on the message type.  The subscript `options[b"name"]` on the
HEADERS_FINISHED branch raises `KeyError` when the content-disposition parameters have
no `name` key. -/
def processMessage (charset : Bytes) (st : PState) (m : Msg) : Except PyErr PState :=
  match m.1 with
  | .PART_BEGIN =>
      .ok { st with content_disposition := none, data := [], headers := [] }
  | .HEADER_FIELD =>
      .ok { st with header_field := st.header_field ++ m.2 }
  | .HEADER_VALUE =>
      .ok { st with header_value := st.header_value ++ m.2 }
  | .HEADER_END =>
      let field := bytesLower st.header_field
      if field = contentDispositionBytes then
        .ok { st with content_disposition := some st.header_value,
                      header_field := [], header_value := [] }
      else
        .ok { st with headers := st.headers ++ [(field, st.header_value)],
                      header_field := [], header_value := [] }
  | .HEADERS_FINISHED =>
      let od := parse_options_header st.content_disposition
      match lookupBytes (strBytes "name") od.2 with
      | none => .error .KeyError
      | some v => .ok { st with field_name := user_safe_decode v charset }
  | .PART_DATA =>
      .ok { st with data := st.data ++ m.2 }
  | .PART_END =>
      .ok { st with items := st.items ++ [(st.field_name, st.headers, st.data)] }
  | .END => .ok st

/-- The message loop of `MultiPartParser.parse` over one drained batch of messages. -/
def processMessages (charset : Bytes) : PState → List Msg → Except PyErr PState
  | st, [] => .ok st
  | st, m :: rest =>
      match processMessage charset st m with
      | .error e => .error e
      | .ok st1 => processMessages charset st1 rest

/-- The chunk loop of `MultiPartParser.parse` (source lines 102-130): each chunk is
written to the decoder, then the accumulated messages are drained and processed before
the next chunk is consumed. -/
def parseLoop (b charset : Bytes) :
    DecState → PState → List Bytes → Except PyErr (DecState × PState)
  | dst, pst, [] => .ok (dst, pst)
  | dst, pst, ch :: rest =>
      match feedBytes b dst ch with
      | .error e => .error e
      | .ok (dst1, ms) =>
          match processMessages charset pst ms with
          | .error e => .error e
          | .ok pst1 => parseLoop b charset dst1 pst1 rest

/-- Header lookup as done by starlette `Headers.get`: case-insensitive on the name,
first match wins. -/
def headerGet (hs : HeaderList) (k : Bytes) : Option Bytes :=
  (hs.find? (fun p => bytesLower p.1 = bytesLower k)).map (fun p => p.2)

/-- Byte string `content-type`. -/
def contentTypeKey : Bytes := strBytes "content-type"

/-- Byte string `multipart/form-data`. -/
def multipartFormData : Bytes := strBytes "multipart/form-data"

/-- Resolved parameters of the request's Content-Type header (source lines 69-75). -/
def ctParams (hdrs : HeaderList) : List (Bytes × Bytes) :=
  (parse_options_header (headerGet hdrs contentTypeKey)).2

/-- Charset resolution of `MultiPartParser.parse`: the `charset` parameter of the
Content-Type header, defaulting to `utf-8` when absent (source line 73). -/
def charsetOf (hdrs : HeaderList) : Bytes :=
  (lookupBytes (strBytes "charset") (ctParams hdrs)).getD (strBytes "utf-8")

/-- Boundary resolution of `MultiPartParser.parse`: the `boundary` parameter of the
Content-Type header (source line 75), absent when missing. -/
def boundaryOf (hdrs : HeaderList) : Option Bytes :=
  lookupBytes (strBytes "boundary") (ctParams hdrs)

/-- Body of `MultiPartParser.parse` (source lines 67-133), parameterized by the
messages the final `parser.finalize()` call appends to `self.messages`: the source
drains `self.messages` only inside the chunk loop, so whatever `finalize` appends is
returned undrained next to the item list.  Modelled from the spec where the decoder is
concerned: a missing boundary makes decoder construction fail, and finalizing in a
non-terminal state is a fatal decode error (`IncompleteMultipart`), both surfaced as
the decoder's `MultipartParseError`. -/
def parseChunksWith (finMsgs : List Msg) (hdrs : HeaderList) (chunks : List Bytes) :
    Except PyErr (List FormItem × List Msg) :=
  match boundaryOf hdrs with
  | none => .error .MultipartParseError
  | some boundary =>
      match parseLoop boundary (charsetOf hdrs) (.start 0) {} chunks with
      | .error e => .error e
      | .ok (dst, pst) =>
          if isTerminal dst then .ok (pst.items, finMsgs)
          else .error .MultipartParseError

/-- Result of `MultiPartParser(headers, stream).parse()`: the item list alone, the
undrained message queue being internal. -/
def MultiPartParser_parse (hdrs : HeaderList) (chunks : List Bytes) :
    Except PyErr (List FormItem) :=
  (parseChunksWith [] hdrs chunks).map (fun p => p.1)

/-- Python dict assignment `d[k] = v` on a dict kept as its insertion-ordered item
list: an existing key keeps its position and gets the new value, a new key is appended. -/
def dictInsert {κ α : Type} [DecidableEq κ] (k : κ) (v : α) :
    List (κ × α) → List (κ × α)
  | [] => [(k, v)]
  | p :: rest => if p.1 = k then (k, v) :: rest else p :: dictInsert k v rest

/-- Python `dict(pairs)`: left-to-right insertion, later pairs override earlier ones. -/
def dictOfList {κ α : Type} [DecidableEq κ] (l : List (κ × α)) : List (κ × α) :=
  l.foldl (fun d p => dictInsert p.1 p.2 d) []

/-- Python `d.update(pairs)`: insert each pair into an existing dict. -/
def dictUpdate {κ α : Type} [DecidableEq κ] (d l : List (κ × α)) : List (κ × α) :=
  l.foldl (fun acc p => dictInsert p.1 p.2 acc) d

/-- Python dict lookup `d.get(k)` on the item-list representation. -/
def dictGet {κ α : Type} [DecidableEq κ] (k : κ) (d : List (κ × α)) : Option α :=
  (d.find? (fun p => p.1 = k)).map (fun p => p.2)

/-- A request as the parse path consumes it: its headers (which starlette exposes both
as `request.headers` and as `scope["headers"]`) and its body chunk stream. -/
structure PyRequest where
  headers : HeaderList
  chunks : List Bytes
deriving DecidableEq, Repr

/-- A synthesized sub-request: the headers placed into its scope and its preloaded body. -/
structure SubRequest where
  headers : HeaderList
  body : Bytes
deriving DecidableEq, Repr

/-- Loop body of `populate_multipart_requests` (source lines 150-157): the parent scope
headers become a dict, the part's headers are updated into it, and the part's data is
the body. -/
def mkSubRequest (scopeHeaders : HeaderList) (item : FormItem) : SubRequest :=
  { headers := dictUpdate (dictOfList scopeHeaders) item.2.1
  , body := item.2.2 }

/-- The `reqs` dict built by `populate_multipart_requests` (source lines 149-158):
`reqs[field_name] = req` for each decoded item in order. -/
def buildReqs (scopeHeaders : HeaderList) (form : List FormItem) :
    List (String × SubRequest) :=
  form.foldl (fun reqs item => dictInsert item.1 (mkSubRequest scopeHeaders item) reqs) []

/-- Translation of `populate_multipart_requests` (source lines 136-159): the bare
`assert content_type == b"multipart/form-data"` raises `AssertionError`; the `except`
clause converts only `multipart.MultipartParseError` into
`BentoMLException("Invalid multipart requests")`, so any other exception (notably the
`KeyError` of a missing field name) propagates unchanged. -/
def populate_multipart_requests (req : PyRequest) :
    Except PyErr (List (String × SubRequest)) :=
  let ct := (parse_options_header (headerGet req.headers contentTypeKey)).1
  if ct = multipartFormData then
    match MultiPartParser_parse req.headers req.chunks with
    | .error .MultipartParseError => .error .BentoMLException
    | .error e => .error e
    | .ok form => .ok (buildReqs req.headers form)
  else .error .AssertionError

/-- A response as consumed by the merger: its body bytes. -/
structure PyResponse where
  body : Bytes
deriving DecidableEq, Repr

/-- The streaming response produced by the merger: body bytes and Content-Type header. -/
structure StreamingResp where
  body : Bytes
  contentType : Bytes
deriving DecidableEq, Repr

/-- One hex digit of `binascii.hexlify`, lowercase. -/
def hexDigit (n : Nat) : Nat := if n < 10 then 48 + n else 87 + n

/-- Translation of `binascii.hexlify`: two lowercase hex digits per byte. -/
def hexlify (bs : Bytes) : Bytes :=
  (bs.map (fun b => [hexDigit (b / 16), hexDigit (b % 16)])).flatten

/-- Translation of `concat_to_multipart_responses` (source lines 162-168), with the
16 random bytes of `os.urandom(16)` passed as a parameter: the body is the raw
concatenation of the input responses' bodies in order, and the Content-Type header is
`multipart/form-data; boundary=` followed by the hexlified random bytes. -/
def concat_to_multipart_responses (rand : Bytes) (responses : List (String × PyResponse)) :
    StreamingResp :=
  { body := (responses.map (fun p => p.2.body)).flatten
  , contentType := strBytes "multipart/form-data; boundary=" ++ hexlify rand }

/-- Property of a header list: every name is fixed by lowercasing and is not
`content-disposition`. -/
def headerNamesOk (hs : HeaderList) : Prop :=
  ∀ p ∈ hs, bytesLower p.1 = p.1 ∧ p.1 ≠ contentDispositionBytes

/-- Property of a parse state: its pending header list and the header list of every
emitted item satisfy `headerNamesOk`. -/
def pstateNamesOk (st : PState) : Prop :=
  headerNamesOk st.headers ∧ ∀ it ∈ st.items, headerNamesOk it.2.1

/-- Number of entries of the dict-as-list with a given key. -/
def countKey {κ α : Type} [DecidableEq κ] (k : κ) (d : List (κ × α)) : Nat :=
  (d.filter (fun p => p.1 = k)).length

/-- Last item of a form with the given field name, when any. -/
def lastNamed (f : String) : List FormItem → Option FormItem
  | [] => none
  | it :: rest =>
      match lastNamed f rest with
      | some r => some r
      | none => if it.1 = f then some it else none

/-- Decidable equality of results. -/
instance exceptDecEq {ε α : Type} [DecidableEq ε] [DecidableEq α] :
    DecidableEq (Except ε α) := fun x y =>
  match x, y with
  | .ok a, .ok b =>
      if h : a = b then .isTrue (by rw [h])
      else .isFalse (by intro hc; cases hc; exact h rfl)
  | .error a, .error b =>
      if h : a = b then .isTrue (by rw [h])
      else .isFalse (by intro hc; cases hc; exact h rfl)
  | .ok a, .error b => .isFalse (by intro hc; cases hc)
  | .error a, .ok b => .isFalse (by intro hc; cases hc)

/-- Decidable equality of items, named to guide instance search. -/
instance formItemDecEq : DecidableEq FormItem := inferInstance

/-- Decidable equality of item lists, named to guide instance search. -/
instance formItemListDecEq : DecidableEq (List FormItem) := inferInstance

/-- Concrete fixture: request headers declaring boundary `XYZ`. -/
def ctXYZ : HeaderList :=
  [(strBytes "content-type", strBytes "multipart/form-data; boundary=XYZ")]

/-- Concrete fixture: the one-part body of the spec's example (field `file`, data `hello`). -/
def bodyOnePart : Bytes :=
  strBytes "--XYZ\r\nContent-Disposition: form-data; name=\"file\"\r\n\r\nhello\r\n--XYZ--"

/-- Concrete fixture: a part whose content-disposition has no `name` parameter. -/
def bodyNoName : Bytes :=
  strBytes "--XYZ\r\nContent-Disposition: form-data\r\n\r\nhello\r\n--XYZ--"

/-- Concrete fixture: a truncated body ending inside the first part's payload. -/
def bodyTrunc : Bytes :=
  strBytes "--XYZ\r\nContent-Disposition: form-data; name=\"f\"\r\n\r\nhel"

/-- Concrete fixture: two parts with the same field name `f`, bodies `A` then `B`, the
second carrying an extra `X-Foo` header. -/
def bodyTwoParts : Bytes :=
  strBytes "--XYZ\r\nContent-Disposition: form-data; name=\"f\"\r\n\r\nA\r\n--XYZ\r\nContent-Disposition: form-data; name=\"f\"\r\nX-Foo: bar\r\n\r\nB\r\n--XYZ--"

/-- Concrete fixture: a request whose Content-Type is not multipart. -/
def reqPlainText : PyRequest :=
  { headers := [(strBytes "content-type", strBytes "text/plain")]
  , chunks := [bodyOnePart] }

/-- Helper: hexlify yields two digits per byte. -/
theorem hexlify_length (bs : Bytes) : (hexlify bs).length = 2 * bs.length := by
  induction bs with
  | nil => rfl
  | cons b rest ih =>
      simp [hexlify] at ih ⊢
      omega

/-- Helper: a hex digit of a value below 16 is a lowercase hex character. -/
theorem hexDigit_range (n : Nat) (h : n < 16) :
    (48 ≤ hexDigit n ∧ hexDigit n ≤ 57) ∨ (97 ≤ hexDigit n ∧ hexDigit n ≤ 102) := by
  unfold hexDigit
  split <;> omega

/-- Helper: hexDigit is injective below 16. -/
theorem hexDigit_inj (m n : Nat) (hm : m < 16) (hn : n < 16)
    (h : hexDigit m = hexDigit n) : m = n := by
  unfold hexDigit at h
  split at h <;> split at h <;> omega

/-- Helper: every character of a hexlified byte string is a lowercase hex character. -/
theorem hexlify_chars (bs : Bytes) (hb : ∀ b ∈ bs, b < 256) :
    ∀ c ∈ hexlify bs, (48 ≤ c ∧ c ≤ 57) ∨ (97 ≤ c ∧ c ≤ 102) := by
  intro c hc
  simp only [hexlify, List.mem_flatten, List.mem_map] at hc
  obtain ⟨l, ⟨b, hbmem, rfl⟩, hcl⟩ := hc
  have hblt : b < 256 := hb b hbmem
  have h1 : b / 16 < 16 := by omega
  have h2 : b % 16 < 16 := Nat.mod_lt _ (by omega)
  simp only [List.mem_cons, List.not_mem_nil, or_false] at hcl
  rcases hcl with rfl | rfl
  · exact hexDigit_range _ h1
  · exact hexDigit_range _ h2

/-- Helper: hexlify is injective on byte strings. -/
theorem hexlify_inj (as bs : Bytes) (ha : ∀ b ∈ as, b < 256) (hb : ∀ b ∈ bs, b < 256)
    (h : hexlify as = hexlify bs) : as = bs := by
  induction as generalizing bs with
  | nil =>
      cases bs with
      | nil => rfl
      | cons b rest => simp [hexlify] at h
  | cons a arest ih =>
      cases bs with
      | nil => simp [hexlify] at h
      | cons b brest =>
          simp only [hexlify, List.map_cons, List.flatten_cons, List.cons_append,
            List.nil_append, List.cons.injEq] at h
          obtain ⟨h1, h2, h3⟩ := h
          have halt : a < 256 := ha a (by simp)
          have hblt : b < 256 := hb b (by simp)
          have e1 : a / 16 = b / 16 :=
            hexDigit_inj _ _ (by omega) (by omega) h1
          have e2 : a % 16 = b % 16 :=
            hexDigit_inj _ _ (Nat.mod_lt _ (by omega)) (Nat.mod_lt _ (by omega)) h2
          have hab : a = b := by omega
          subst hab
          have := ih brest (fun x hx => ha x (by simp [hx]))
            (fun x hx => hb x (by simp [hx])) (by simpa [hexlify] using h3)
          rw [this]

/-- C6: `concat_to_multipart_responses` returns a response whose body is exactly the
concatenation of the input responses' bodies in order, and whose Content-Type header is
`multipart/form-data` with a boundary that is the hexlification of the 16 random bytes:
a 32-character string of lowercase hex characters, determined injectively by the random
bytes (so distinct draws give distinct boundaries). -/
theorem merge_concat_spec (rand : Bytes) (rs : List (String × PyResponse))
    (hlen : rand.length = 16) (hbytes : ∀ b ∈ rand, b < 256) :
    (concat_to_multipart_responses rand rs).body = (rs.map (fun p => p.2.body)).flatten ∧
    (concat_to_multipart_responses rand rs).contentType =
      strBytes "multipart/form-data; boundary=" ++ hexlify rand ∧
    (hexlify rand).length = 32 ∧
    (∀ c ∈ hexlify rand, (48 ≤ c ∧ c ≤ 57) ∨ (97 ≤ c ∧ c ≤ 102)) ∧
    (∀ rand2 : Bytes, (∀ b ∈ rand2, b < 256) → hexlify rand = hexlify rand2 →
      rand = rand2) := by
  refine ⟨rfl, rfl, ?_, hexlify_chars rand hbytes, ?_⟩
  · rw [hexlify_length, hlen]
  · intro rand2 h2 he
    exact hexlify_inj rand rand2 hbytes h2 he

/-- C6 witness: at 16 concrete random bytes and two responses with bodies `abc` and
`def`, the merged body is `abcdef` and the boundary has 32 characters. -/
theorem merge_concat_spec_witness :
    (concat_to_multipart_responses (List.range 16)
        [("a", { body := strBytes "abc" }), ("b", { body := strBytes "def" })]).body =
      strBytes "abcdef" ∧
    (hexlify (List.range 16)).length = 32 := by
  have h := merge_concat_spec (List.range 16)
    [("a", { body := strBytes "abc" }), ("b", { body := strBytes "def" })]
    (by decide) (by decide)
  exact ⟨by rw [h.1]; decide, h.2.2.1⟩

/-- Helper: lowering a byte is idempotent. -/
theorem lowerByte_idem (b : Nat) : lowerByte (lowerByte b) = lowerByte b := by
  unfold lowerByte
  split_ifs <;> omega

/-- Helper: bytes.lower is idempotent. -/
theorem bytesLower_idem (bs : Bytes) : bytesLower (bytesLower bs) = bytesLower bs := by
  simp [bytesLower, List.map_map, Function.comp, lowerByte_idem]

/-- Helper: inversion of a successful `MultiPartParser_parse` into its run. -/
theorem parse_ok_inv (hdrs : HeaderList) (chunks : List Bytes) (items : List FormItem)
    (h : MultiPartParser_parse hdrs chunks = .ok items) :
    ∃ boundary dst pst, boundaryOf hdrs = some boundary ∧
      parseLoop boundary (charsetOf hdrs) (.start 0) {} chunks = .ok (dst, pst) ∧
      isTerminal dst = true ∧ items = pst.items := by
  unfold MultiPartParser_parse parseChunksWith at h
  split at h
  · simp [Except.map] at h
  · rename_i boundary hb
    split at h
    · simp [Except.map] at h
    · rename_i dst pst hl
      split at h
      · rename_i ht
        simp [Except.map] at h
        exact ⟨boundary, dst, pst, hb, hl, by simpa using ht, h.symm⟩
      · simp [Except.map] at h

/-- Helper: conversely, a successful run gives a successful parse. -/
theorem parse_ok_of_run (hdrs : HeaderList) (chunks : List Bytes) (boundary : Bytes)
    (dst : DecState) (pst : PState) (hb : boundaryOf hdrs = some boundary)
    (hl : parseLoop boundary (charsetOf hdrs) (.start 0) {} chunks = .ok (dst, pst))
    (ht : isTerminal dst = true) :
    MultiPartParser_parse hdrs chunks = .ok pst.items := by
  simp [MultiPartParser_parse, parseChunksWith, hb, hl, ht, Except.map]

/-- Helper: inversion of a successful `populate_multipart_requests`. -/
theorem populate_ok_inv (req : PyRequest) (reqs : List (String × SubRequest))
    (h : populate_multipart_requests req = .ok reqs) :
    (parse_options_header (headerGet req.headers contentTypeKey)).1 = multipartFormData ∧
    ∃ form, MultiPartParser_parse req.headers req.chunks = .ok form ∧
      reqs = buildReqs req.headers form := by
  unfold populate_multipart_requests at h
  by_cases hct :
      (parse_options_header (headerGet req.headers contentTypeKey)).1 = multipartFormData
  · refine ⟨hct, ?_⟩
    simp only [hct, if_true] at h
    split at h
    · simp at h
    · simp at h
    · rename_i form hp
      simp at h
      exact ⟨form, hp, h.symm⟩
  · simp [hct] at h

/-- Helper: a decode error surfaces from `populate_multipart_requests` as the
`BentoMLException` when the content type passed the assert. -/
theorem populate_of_parse_mpe (req : PyRequest)
    (hct : (parse_options_header (headerGet req.headers contentTypeKey)).1 =
      multipartFormData)
    (hp : MultiPartParser_parse req.headers req.chunks = .error .MultipartParseError) :
    populate_multipart_requests req = .error .BentoMLException := by
  unfold populate_multipart_requests
  simp [hct, hp]

/-- Helper: any other parse error propagates unchanged through
`populate_multipart_requests` when the content type passed the assert. -/
theorem populate_of_parse_err (req : PyRequest) (e : PyErr)
    (hct : (parse_options_header (headerGet req.headers contentTypeKey)).1 =
      multipartFormData)
    (hne : e ≠ .MultipartParseError)
    (hp : MultiPartParser_parse req.headers req.chunks = .error e) :
    populate_multipart_requests req = .error e := by
  cases e
  case MultipartParseError => exact absurd rfl hne
  all_goals
    unfold populate_multipart_requests
  all_goals
    simp [hct, hp]

/-- Helper: one message step preserves the header-name invariant. -/
theorem processMessage_namesOk (charset : Bytes) (st st2 : PState) (m : Msg)
    (h : processMessage charset st m = .ok st2) (hg : pstateNamesOk st) :
    pstateNamesOk st2 := by
  obtain ⟨hhd, hit⟩ := hg
  obtain ⟨k, bs⟩ := m
  cases k <;> simp only [processMessage] at h
  case PART_BEGIN =>
      cases h
      refine ⟨?_, hit⟩
      intro p hp
      cases hp
  case HEADER_FIELD =>
      cases h
      exact ⟨hhd, hit⟩
  case HEADER_VALUE =>
      cases h
      exact ⟨hhd, hit⟩
  case HEADER_END =>
      split at h <;> cases h
      · exact ⟨hhd, hit⟩
      · rename_i hne
        refine ⟨?_, hit⟩
        intro p hp
        rcases List.mem_append.mp hp with hmem | hmem
        · exact hhd p hmem
        · simp only [List.mem_singleton] at hmem
          subst hmem
          exact ⟨bytesLower_idem _, hne⟩
  case HEADERS_FINISHED =>
      split at h
      · cases h
      · cases h
        exact ⟨hhd, hit⟩
  case PART_DATA =>
      cases h
      exact ⟨hhd, hit⟩
  case PART_END =>
      cases h
      refine ⟨hhd, ?_⟩
      intro it hmem
      rcases List.mem_append.mp hmem with hmem | hmem
      · exact hit it hmem
      · simp only [List.mem_singleton] at hmem
        subst hmem
        exact hhd
  case END =>
      cases h
      exact ⟨hhd, hit⟩

/-- Helper: a drained message batch preserves the header-name invariant. -/
theorem processMessages_namesOk (charset : Bytes) (ms : List Msg) :
    ∀ st st2, processMessages charset st ms = .ok st2 → pstateNamesOk st →
      pstateNamesOk st2 := by
  induction ms with
  | nil =>
      intro st st2 h hg
      cases h
      exact hg
  | cons m rest ih =>
      intro st st2 h hg
      rw [processMessages] at h
      cases hpm : processMessage charset st m with
      | error e => rw [hpm] at h; cases h
      | ok st1 =>
          rw [hpm] at h
          exact ih st1 st2 h (processMessage_namesOk charset st st1 m hpm hg)

/-- Helper: the chunk loop preserves the header-name invariant. -/
theorem parseLoop_namesOk (b charset : Bytes) (chunks : List Bytes) :
    ∀ dst pst dst2 pst2, parseLoop b charset dst pst chunks = .ok (dst2, pst2) →
      pstateNamesOk pst → pstateNamesOk pst2 := by
  induction chunks with
  | nil =>
      intro dst pst dst2 pst2 h hg
      cases h
      exact hg
  | cons ch rest ih =>
      intro dst pst dst2 pst2 h hg
      rw [parseLoop] at h
      split at h
      · cases h
      · rename_i dst1 ms hf
        split at h
        · cases h
        · rename_i pst1 hpm
          exact ih dst1 pst1 dst2 pst2 h
            (processMessages_namesOk charset ms pst pst1 hpm hg)

/-- C10: every header name in every item emitted by `MultiPartParser.parse` is fixed
by lowercasing (it is the lower-cased form of the received header field bytes), and no
`content-disposition` entry ever appears in an item's header list. -/
theorem emitted_header_names_lowercase (hdrs : HeaderList) (chunks : List Bytes)
    (items : List FormItem) (h : MultiPartParser_parse hdrs chunks = .ok items) :
    ∀ it ∈ items, ∀ p ∈ it.2.1,
      bytesLower p.1 = p.1 ∧ p.1 ≠ contentDispositionBytes := by
  obtain ⟨boundary, dst, pst, hb, hl, ht, hi⟩ := parse_ok_inv hdrs chunks items h
  subst hi
  have hinit : pstateNamesOk {} := by
    constructor
    · intro p hp; cases hp
    · intro it hmem; cases hmem
  exact (parseLoop_namesOk boundary (charsetOf hdrs) chunks _ _ dst pst hl hinit).2

/-- C10 witness: in the decode of the concrete two-part body, the extra header of the
second part appears as the lower-cased `x-foo` and differs from `content-disposition`. -/
theorem emitted_header_names_lowercase_witness :
    bytesLower (strBytes "x-foo") = strBytes "x-foo" ∧
    strBytes "x-foo" ≠ contentDispositionBytes := by
  have h := emitted_header_names_lowercase ctXYZ [bodyTwoParts]
    [("f", [], [65]), ("f", [(strBytes "x-foo", strBytes "bar")], [66])]
    (by decide)
    ("f", [(strBytes "x-foo", strBytes "bar")], [66]) (by decide)
    (strBytes "x-foo", strBytes "bar") (by decide)
  exact h

/-- Helper: lookup after a dict insert. -/
theorem dictGet_insert {κ α : Type} [DecidableEq κ] (k n : κ) (v : α)
    (d : List (κ × α)) :
    dictGet n (dictInsert k v d) = if k = n then some v else dictGet n d := by
  induction d with
  | nil => by_cases hkn : k = n <;> simp [dictGet, dictInsert, List.find?, hkn]
  | cons p rest ih =>
      by_cases hpk : p.1 = k
      · by_cases hkn : k = n <;>
          simp_all [dictGet, dictInsert, List.find?]
      · by_cases hpn : p.1 = n <;> by_cases hkn : k = n <;>
          simp_all [dictGet, dictInsert, List.find?]

/-- Helper: a dict update looks up as the updates first, then the base dict. -/
theorem dictGet_dictUpdate {κ α : Type} [DecidableEq κ] (n : κ) (l : List (κ × α)) :
    ∀ d, dictGet n (dictUpdate d l) = (dictGet n (dictOfList l)).or (dictGet n d) := by
  induction l with
  | nil =>
      intro d
      simp [dictUpdate, dictOfList, dictGet, Option.or]
  | cons p t ih =>
      intro d
      have hu : dictUpdate d (p :: t) = dictUpdate (dictInsert p.1 p.2 d) t := by
        simp [dictUpdate]
      have hl : dictOfList (p :: t) = dictUpdate [(p.1, p.2)] t := by
        simp [dictOfList, dictUpdate, dictInsert]
      rw [hu, ih, hl, ih, dictGet_insert]
      have hsingle : dictGet n [(p.1, p.2)] = if p.1 = n then some p.2 else none := by
        by_cases hpn : p.1 = n <;> simp [dictGet, List.find?, hpn]
      rw [hsingle]
      rcases dictGet n (dictOfList t) with _ | w <;>
        by_cases hpn : p.1 = n <;> simp [Option.or, hpn]

/-- Helper: a key bound by the updates wins over the base dict. -/
theorem dictGet_update_some {κ α : Type} [DecidableEq κ] (n : κ) (v : α)
    (l d : List (κ × α)) (h : dictGet n (dictOfList l) = some v) :
    dictGet n (dictUpdate d l) = some v := by
  rw [dictGet_dictUpdate, h]
  rfl

/-- Helper: a key not bound by the updates falls back to the base dict. -/
theorem dictGet_update_none {κ α : Type} [DecidableEq κ] (n : κ)
    (l d : List (κ × α)) (h : dictGet n (dictOfList l) = none) :
    dictGet n (dictUpdate d l) = dictGet n d := by
  rw [dictGet_dictUpdate, h]
  rfl

/-- Helper: membership after a dict insert. -/
theorem mem_dictInsert {κ α : Type} [DecidableEq κ] (p : κ × α) (k : κ) (v : α)
    (d : List (κ × α)) (h : p ∈ dictInsert k v d) : p = (k, v) ∨ p ∈ d := by
  induction d with
  | nil => simpa [dictInsert] using h
  | cons q rest ih =>
      rw [dictInsert] at h
      split at h
      · rcases List.mem_cons.mp h with hp | hp
        · exact Or.inl hp
        · exact Or.inr (List.mem_cons_of_mem _ hp)
      · rcases List.mem_cons.mp h with hp | hp
        · exact Or.inr (by simp [hp])
        · rcases ih hp with hp2 | hp2
          · exact Or.inl hp2
          · exact Or.inr (List.mem_cons_of_mem _ hp2)

/-- Helper: every entry of the `reqs` dict comes from a decoded item. -/
theorem mem_buildReqs (sh : HeaderList) (form : List FormItem) :
    ∀ init p, p ∈ form.foldl
        (fun reqs it => dictInsert it.1 (mkSubRequest sh it) reqs) init →
      p ∈ init ∨ ∃ it ∈ form, p.1 = it.1 ∧ p.2 = mkSubRequest sh it := by
  induction form with
  | nil =>
      intro init p h
      exact Or.inl h
  | cons it t ih =>
      intro init p h
      rw [List.foldl_cons] at h
      rcases ih (dictInsert it.1 (mkSubRequest sh it) init) p h with hp | hp
      · rcases mem_dictInsert p it.1 (mkSubRequest sh it) init hp with hp2 | hp2
        · refine Or.inr ⟨it, by simp, ?_⟩
          rw [hp2]
          exact ⟨rfl, rfl⟩
        · exact Or.inl hp2
      · obtain ⟨it2, hmem, hp2⟩ := hp
        exact Or.inr ⟨it2, List.mem_cons_of_mem _ hmem, hp2⟩

/-- C5: the sub-request built for a decoded item carries the parent scope's headers
with the part's own headers layered on top: a name bound by the part's headers resolves
to the part's value, a name the part does not bind resolves to the parent's value, and
the body is exactly the part's data bytes.  Moreover every entry of the mapping
returned by `populate_multipart_requests` is such a sub-request of a decoded item. -/
theorem subrequest_merge_spec (scopeH : HeaderList) (item : FormItem) (n : Bytes) :
    (∀ v, dictGet n (dictOfList item.2.1) = some v →
        dictGet n (mkSubRequest scopeH item).headers = some v) ∧
    (dictGet n (dictOfList item.2.1) = none →
        dictGet n (mkSubRequest scopeH item).headers = dictGet n (dictOfList scopeH)) ∧
    (mkSubRequest scopeH item).body = item.2.2 ∧
    (∀ req reqs form, populate_multipart_requests req = .ok reqs →
        MultiPartParser_parse req.headers req.chunks = .ok form →
        ∀ p ∈ reqs, ∃ it ∈ form, p.1 = it.1 ∧ p.2 = mkSubRequest req.headers it) := by
  refine ⟨?_, ?_, rfl, ?_⟩
  · intro v hv
    exact dictGet_update_some n v item.2.1 (dictOfList scopeH) hv
  · intro hnone
    exact dictGet_update_none n item.2.1 (dictOfList scopeH) hnone
  · intro req reqs form hpop hparse p hp
    obtain ⟨hct, form2, hparse2, hreqs⟩ := populate_ok_inv req reqs hpop
    rw [hparse] at hparse2
    cases hparse2
    rw [hreqs] at hp
    rcases mem_buildReqs req.headers form [] p hp with hinit | hfound
    · cases hinit
    · exact hfound

/-- C5 witness: for the concrete second part of the two-part body, the merged headers
resolve `x-foo` to the part's value and `content-type` to the parent's value, and the
body is the part's data. -/
theorem subrequest_merge_spec_witness :
    dictGet (strBytes "x-foo")
        (mkSubRequest ctXYZ ("f", [(strBytes "x-foo", strBytes "bar")], [66])).headers =
      some (strBytes "bar") ∧
    dictGet contentTypeKey
        (mkSubRequest ctXYZ ("f", [(strBytes "x-foo", strBytes "bar")], [66])).headers =
      dictGet contentTypeKey (dictOfList ctXYZ) ∧
    (mkSubRequest ctXYZ ("f", [(strBytes "x-foo", strBytes "bar")], [66])).body = [66] := by
  have h1 := subrequest_merge_spec ctXYZ
    ("f", [(strBytes "x-foo", strBytes "bar")], [66]) (strBytes "x-foo")
  have h2 := subrequest_merge_spec ctXYZ
    ("f", [(strBytes "x-foo", strBytes "bar")], [66]) contentTypeKey
  exact ⟨h1.1 (strBytes "bar") (by decide), h2.2.1 (by decide), h1.2.2.1⟩

/-- Helper: unfolding of `lastNamed` on a cons via `Option.or`. -/
theorem lastNamed_cons (f : String) (it : FormItem) (rest : List FormItem) :
    lastNamed f (it :: rest) =
      (lastNamed f rest).or (if it.1 = f then some it else none) := by
  rw [lastNamed]
  rcases lastNamed f rest <;> rfl

/-- Helper: `lastNamed` over an append prefers the second list. -/
theorem lastNamed_append (f : String) (xs ys : List FormItem) :
    lastNamed f (xs ++ ys) = (lastNamed f ys).or (lastNamed f xs) := by
  induction xs with
  | nil =>
      rw [List.nil_append, lastNamed]
      rcases lastNamed f ys <;> rfl
  | cons x t ih =>
      rw [List.cons_append, lastNamed_cons, ih, lastNamed_cons]
      rcases lastNamed f ys <;> rcases lastNamed f t <;> rfl

/-- Helper: a list none of whose items carry the field name has no last such item. -/
theorem lastNamed_eq_none (f : String) (l : List FormItem)
    (h : ∀ it ∈ l, it.1 ≠ f) : lastNamed f l = none := by
  induction l with
  | nil => rfl
  | cons it t ih =>
      rw [lastNamed_cons, ih (fun x hx => h x (List.mem_cons_of_mem _ hx))]
      simp [h it (by simp)]

/-- Helper: lookup in the `reqs` dict finds the sub-request of the last item with the
field name, falling back to the initial dict. -/
theorem buildReqs_lookup (sh : HeaderList) (f : String) (form : List FormItem) :
    ∀ init, dictGet f (form.foldl
        (fun reqs it => dictInsert it.1 (mkSubRequest sh it) reqs) init) =
      (Option.map (fun it => mkSubRequest sh it) (lastNamed f form)).or
        (dictGet f init) := by
  induction form with
  | nil =>
      intro init
      rw [List.foldl_nil, lastNamed]
      rfl
  | cons it t ih =>
      intro init
      rw [List.foldl_cons, ih, lastNamed_cons, dictGet_insert]
      rcases lastNamed f t with _ | r
      · by_cases hf : it.1 = f <;> simp [Option.or, hf]
      · simp [Option.or]

/-- Helper: the keys of a dict insert. -/
theorem keys_dictInsert {κ α : Type} [DecidableEq κ] (k : κ) (v : α)
    (d : List (κ × α)) :
    (dictInsert k v d).map Prod.fst =
      if k ∈ d.map Prod.fst then d.map Prod.fst else d.map Prod.fst ++ [k] := by
  induction d with
  | nil => simp [dictInsert]
  | cons p rest ih =>
      by_cases hpk : p.1 = k
      · simp [dictInsert, hpk]
      · have hkp : ¬k = p.1 := fun he => hpk he.symm
        simp only [dictInsert, if_neg hpk, List.map_cons, ih, List.mem_cons]
        by_cases hk : k ∈ rest.map Prod.fst <;> simp [hk, hkp]

/-- Helper: a dict insert keeps the keys without duplicates. -/
theorem keysNodup_dictInsert {κ α : Type} [DecidableEq κ] (k : κ) (v : α)
    (d : List (κ × α)) (h : (d.map Prod.fst).Nodup) :
    ((dictInsert k v d).map Prod.fst).Nodup := by
  rw [keys_dictInsert]
  split
  · exact h
  · rename_i hnotin
    simp [List.nodup_append, h, hnotin]

/-- Helper: the `reqs` dict has no duplicate keys. -/
theorem buildReqs_keysNodup (sh : HeaderList) (form : List FormItem) :
    ∀ init : List (String × SubRequest), (init.map Prod.fst).Nodup →
      ((form.foldl (fun reqs it => dictInsert it.1 (mkSubRequest sh it) reqs)
        init).map Prod.fst).Nodup := by
  induction form with
  | nil => intro init h; exact h
  | cons it t ih =>
      intro init h
      rw [List.foldl_cons]
      exact ih _ (keysNodup_dictInsert it.1 (mkSubRequest sh it) init h)

/-- Helper: an absent key contributes no entries. -/
theorem countKey_eq_zero {κ α : Type} [DecidableEq κ] (k : κ) (d : List (κ × α))
    (h : k ∉ d.map Prod.fst) : countKey k d = 0 := by
  induction d with
  | nil => rfl
  | cons p rest ih =>
      simp only [List.map_cons, List.mem_cons] at h
      push_neg at h
      have hpk : ¬p.1 = k := fun he => h.1 he.symm
      simpa [countKey, List.filter, hpk] using ih h.2

/-- Helper: with nodup keys, a bound key has exactly one entry. -/
theorem countKey_one_of_nodup {κ α : Type} [DecidableEq κ] (k : κ)
    (d : List (κ × α)) (v : α) (hn : (d.map Prod.fst).Nodup)
    (hg : dictGet k d = some v) : countKey k d = 1 := by
  induction d with
  | nil => simp [dictGet] at hg
  | cons p rest ih =>
      simp only [List.map_cons, List.nodup_cons] at hn
      by_cases hpk : p.1 = k
      · have hzero : countKey k rest = 0 :=
          countKey_eq_zero k rest (by rw [← hpk]; exact hn.1)
        simp [countKey, List.filter, hpk] at hzero ⊢
        exact hzero
      · have hg2 : dictGet k rest = some v := by
          simpa [dictGet, List.find?, hpk] using hg
        have := ih hn.2 hg2
        simpa [countKey, List.filter, hpk] using this

/-- C4: when the decoded form contains two parts sharing field name `f` with bodies
`A` then `B` in stream order and no later part uses `f`, the mapping returned by
`populate_multipart_requests` binds `f` to exactly one sub-request, namely the one
built from the later part, whose body is `B` (last write wins). -/
theorem collision_last_write_wins (req : PyRequest) (reqs : List (String × SubRequest))
    (form l1 l2 l3 : List FormItem) (f : String) (hd1 hd2 : HeaderList) (A B : Bytes)
    (hok : populate_multipart_requests req = .ok reqs)
    (hparse : MultiPartParser_parse req.headers req.chunks = .ok form)
    (hshape : form = l1 ++ (f, hd1, A) :: (l2 ++ (f, hd2, B) :: l3))
    (hlast : ∀ it ∈ l3, it.1 ≠ f) :
    dictGet f reqs = some (mkSubRequest req.headers (f, hd2, B)) ∧
    (mkSubRequest req.headers (f, hd2, B)).body = B ∧
    countKey f reqs = 1 := by
  obtain ⟨hct, form2, hparse2, hreqs⟩ := populate_ok_inv req reqs hok
  rw [hparse] at hparse2
  cases hparse2
  have hlastnamed : lastNamed f form = some (f, hd2, B) := by
    rw [hshape, lastNamed_append, lastNamed_cons, lastNamed_append, lastNamed_cons,
      lastNamed_eq_none f l3 hlast]
    simp [Option.or]
  have hget : dictGet f reqs = some (mkSubRequest req.headers (f, hd2, B)) := by
    rw [hreqs]
    unfold buildReqs
    rw [buildReqs_lookup, hlastnamed]
    rfl
  refine ⟨hget, rfl, ?_⟩
  have hnodup : (reqs.map Prod.fst).Nodup := by
    rw [hreqs]
    exact buildReqs_keysNodup req.headers form [] (by simp)
  exact countKey_one_of_nodup f reqs _ hnodup hget

/-- C4 witness: in the concrete two-part body with field name `f` and bodies `A` and
`B`, the returned mapping has exactly one entry for `f` and its body is `B`. -/
theorem collision_last_write_wins_witness :
    dictGet "f" (buildReqs ctXYZ
        [("f", [], [65]), ("f", [(strBytes "x-foo", strBytes "bar")], [66])]) =
      some (mkSubRequest ctXYZ ("f", [(strBytes "x-foo", strBytes "bar")], [66])) ∧
    (mkSubRequest ctXYZ ("f", [(strBytes "x-foo", strBytes "bar")], [66])).body = [66] ∧
    countKey "f" (buildReqs ctXYZ
        [("f", [], [65]), ("f", [(strBytes "x-foo", strBytes "bar")], [66])]) = 1 := by
  have h := collision_last_write_wins
    { headers := ctXYZ, chunks := [bodyTwoParts] }
    (buildReqs ctXYZ [("f", [], [65]), ("f", [(strBytes "x-foo", strBytes "bar")], [66])])
    [("f", [], [65]), ("f", [(strBytes "x-foo", strBytes "bar")], [66])]
    [] [] [] "f" [] [(strBytes "x-foo", strBytes "bar")] [65] [66]
    (by decide) (by decide) rfl (by intro it h; cases h)
  exact h

/-- Helper: an error while feeding a prefix is an error for the whole byte string. -/
theorem feedBytes_append_err (b : Bytes) (xs ys : Bytes) :
    ∀ st e, feedBytes b st xs = .error e → feedBytes b st (xs ++ ys) = .error e := by
  induction xs with
  | nil => intro st e h; cases h
  | cons c t ih =>
      intro st e h
      rw [feedBytes] at h
      rw [List.cons_append, feedBytes]
      split at h
      · exact h
      · rename_i st' ms' hs
        split at h
        · rename_i e2 hf
          cases h
          simp [ih st' _ hf]
        · cases h

/-- Helper: feeding an append concatenates the emitted messages. -/
theorem feedBytes_append_ok (b : Bytes) (xs ys : Bytes) :
    ∀ st st1 ms1 st2 ms2, feedBytes b st xs = .ok (st1, ms1) →
      feedBytes b st1 ys = .ok (st2, ms2) →
      feedBytes b st (xs ++ ys) = .ok (st2, ms1 ++ ms2) := by
  induction xs with
  | nil =>
      intro st st1 ms1 st2 ms2 h1 h2
      rw [feedBytes] at h1
      cases h1
      simpa using h2
  | cons c t ih =>
      intro st st1 ms1 st2 ms2 h1 h2
      rw [feedBytes] at h1
      rw [List.cons_append, feedBytes]
      split at h1
      · cases h1
      · rename_i st' ms' hs
        split at h1
        · cases h1
        · rename_i q1 q2 hf
          cases h1
          simp [ih st' st1 q2 st2 ms2 hf h2]

/-- Helper: an error in the second piece after a successful first piece is an error
for the whole byte string. -/
theorem feedBytes_append_ok_err (b : Bytes) (xs ys : Bytes) :
    ∀ st st1 ms1 e, feedBytes b st xs = .ok (st1, ms1) →
      feedBytes b st1 ys = .error e →
      feedBytes b st (xs ++ ys) = .error e := by
  induction xs with
  | nil =>
      intro st st1 ms1 e h1 h2
      rw [feedBytes] at h1
      cases h1
      simpa using h2
  | cons c t ih =>
      intro st st1 ms1 e h1 h2
      rw [feedBytes] at h1
      rw [List.cons_append, feedBytes]
      split at h1
      · cases h1
      · rename_i st' ms' hs
        split at h1
        · cases h1
        · rename_i q1 q2 hf
          cases h1
          simp [ih st' st1 q2 e hf h2]

/-- Helper: processing an appended message batch is processing the pieces in order. -/
theorem processMessages_append (charset : Bytes) (ms1 ms2 : List Msg) :
    ∀ st, processMessages charset st (ms1 ++ ms2) =
      match processMessages charset st ms1 with
      | .error e => .error e
      | .ok st1 => processMessages charset st1 ms2 := by
  induction ms1 with
  | nil => intro st; rfl
  | cons m t ih =>
      intro st
      rw [List.cons_append, processMessages]
      cases hp : processMessage charset st m with
      | error e => simp [processMessages, hp]
      | ok st1 => simp [processMessages, hp, ih st1]

/-- Helper: a successful chunk loop equals feeding the flattened stream and then
processing all emitted messages. -/
theorem parseLoop_join_ok (b charset : Bytes) (chunks : List Bytes) :
    ∀ dst pst dst2 pst2, parseLoop b charset dst pst chunks = .ok (dst2, pst2) →
      ∃ ms, feedBytes b dst chunks.flatten = .ok (dst2, ms) ∧
        processMessages charset pst ms = .ok pst2 := by
  induction chunks with
  | nil =>
      intro dst pst dst2 pst2 h
      cases h
      exact ⟨[], rfl, rfl⟩
  | cons ch rest ih =>
      intro dst pst dst2 pst2 h
      rw [parseLoop] at h
      split at h
      · cases h
      · rename_i dst1 ms1 hf
        split at h
        · cases h
        · rename_i pst1 hpm
          obtain ⟨ms2, hf2, hpm2⟩ := ih dst1 pst1 dst2 pst2 h
          refine ⟨ms1 ++ ms2, ?_, ?_⟩
          · rw [List.flatten_cons]
            exact feedBytes_append_ok b ch rest.flatten dst dst1 ms1 dst2 ms2 hf hf2
          · rw [processMessages_append]
            simp [hpm, hpm2]

/-- Helper: conversely, a successful run over the flattened stream yields the same
successful chunk loop for any chunking of those bytes. -/
theorem parseLoop_of_join (b charset : Bytes) (chunks : List Bytes) :
    ∀ dst pst dst2 pst2 ms, feedBytes b dst chunks.flatten = .ok (dst2, ms) →
      processMessages charset pst ms = .ok pst2 →
      parseLoop b charset dst pst chunks = .ok (dst2, pst2) := by
  induction chunks with
  | nil =>
      intro dst pst dst2 pst2 ms hf hp
      rw [List.flatten_nil, feedBytes] at hf
      cases hf
      cases hp
      rfl
  | cons ch rest ih =>
      intro dst pst dst2 pst2 ms hf hp
      rw [List.flatten_cons] at hf
      cases h1 : feedBytes b dst ch with
      | error e =>
          rw [feedBytes_append_err b ch rest.flatten dst e h1] at hf
          cases hf
      | ok p =>
          obtain ⟨dst1, ms1⟩ := p
          cases h2 : feedBytes b dst1 rest.flatten with
          | error e =>
              rw [feedBytes_append_ok_err b ch rest.flatten dst dst1 ms1 e h1 h2] at hf
              cases hf
          | ok q =>
              obtain ⟨dstq, ms2⟩ := q
              rw [feedBytes_append_ok b ch rest.flatten dst dst1 ms1 dstq ms2 h1 h2] at hf
              cases hf
              rw [processMessages_append] at hp
              cases h3 : processMessages charset pst ms1 with
              | error e => simp [h3] at hp
              | ok pst1 =>
                  rw [h3] at hp
                  rw [parseLoop]
                  simp [h1, h3]
                  exact ih dst1 pst1 dst2 pst2 ms2 h2 (by simpa using hp)

/-- C3: decoding is invariant under the chunking of the byte stream: if one chunking
of a body decodes successfully to an item sequence, every other chunking of the same
bytes (one-byte chunks, 64KB chunks, or a single chunk) decodes to the identical item
sequence. -/
theorem parse_chunking_invariant (hdrs : HeaderList) (chunks1 chunks2 : List Bytes)
    (items : List FormItem)
    (h1 : MultiPartParser_parse hdrs chunks1 = .ok items)
    (hj : chunks1.flatten = chunks2.flatten) :
    MultiPartParser_parse hdrs chunks2 = .ok items := by
  obtain ⟨boundary, dst, pst, hb, hl, ht, hi⟩ := parse_ok_inv hdrs chunks1 items h1
  obtain ⟨ms, hf, hpm⟩ :=
    parseLoop_join_ok boundary (charsetOf hdrs) chunks1 _ _ dst pst hl
  rw [hj] at hf
  have hl2 := parseLoop_of_join boundary (charsetOf hdrs) chunks2 _ _ dst pst ms hf hpm
  rw [hi]
  exact parse_ok_of_run hdrs chunks2 boundary dst pst hb hl2 ht

/-- C3 witness: the one-part example body decodes to the same item sequence whether
delivered as a single chunk or as one-byte chunks. -/
theorem parse_chunking_invariant_witness :
    MultiPartParser_parse ctXYZ (bodyOnePart.map (fun c => [c])) =
      .ok [("file", [], strBytes "hello")] :=
  parse_chunking_invariant ctXYZ [bodyOnePart] (bodyOnePart.map (fun c => [c]))
    [("file", [], strBytes "hello")] (by decide) (by decide)

/-- C1 (amended): decode failures raised as the decoder's `MultipartParseError`
(malformed framing, truncated stream, missing boundary) are the only ones collapsed
into `BentoMLException("Invalid multipart requests")`; any other parse error (the
`KeyError` of a missing field name) propagates with its own kind, and an invalid
content type fails the bare assert as `AssertionError`.  In every failure case zero
sub-requests are produced: a successful call requires a fully successful parse and
returns exactly the mapping built from the decoded form. -/
theorem populate_error_collapse (req : PyRequest) :
    (∀ e, (parse_options_header (headerGet req.headers contentTypeKey)).1 =
        multipartFormData →
      MultiPartParser_parse req.headers req.chunks = .error e →
      populate_multipart_requests req =
        .error (if e = .MultipartParseError then .BentoMLException else e)) ∧
    ((parse_options_header (headerGet req.headers contentTypeKey)).1 ≠
        multipartFormData →
      populate_multipart_requests req = .error .AssertionError) ∧
    (∀ reqs, populate_multipart_requests req = .ok reqs →
      ∃ form, MultiPartParser_parse req.headers req.chunks = .ok form ∧
        reqs = buildReqs req.headers form) := by
  refine ⟨?_, ?_, ?_⟩
  · intro e hct hp
    by_cases he : e = PyErr.MultipartParseError
    · subst he
      simp only [if_pos rfl]
      exact populate_of_parse_mpe req hct hp
    · rw [if_neg he]
      exact populate_of_parse_err req e hct he hp
  · intro hct
    unfold populate_multipart_requests
    simp [hct]
  · intro reqs h
    obtain ⟨hct, form, hp, hr⟩ := populate_ok_inv req reqs h
    exact ⟨form, hp, hr⟩

/-- C1 witness: for the concrete truncated body the decoder error surfaces as the
single `BentoMLException`. -/
theorem populate_error_collapse_witness :
    populate_multipart_requests { headers := ctXYZ, chunks := [bodyTrunc] } =
      .error .BentoMLException := by
  have h := (populate_error_collapse
      { headers := ctXYZ, chunks := [bodyTrunc] }).1
    .MultipartParseError (by decide) (by decide)
  simpa using h

/-- C1 counterexample: an invalid content type is one of the four failure causes, yet
the caller observes `AssertionError`, not the `BentoMLException` standing for
`InvalidMultipartRequest`. -/
theorem populate_error_collapse_cex :
    populate_multipart_requests reqPlainText = .error .AssertionError ∧
    PyErr.AssertionError ≠ PyErr.BentoMLException := by
  exact ⟨by decide, by decide⟩

/-- C2 (amended): a part whose content-disposition lacks a `name` parameter makes the
HEADERS_FINISHED step fail with `KeyError` (the `options[b"name"]` subscript), and that
`KeyError` escapes `populate_multipart_requests` unchanged, because its except clause
converts only `MultipartParseError`; zero sub-requests are produced. -/
theorem missing_field_name_keyerror :
    (∀ charset st, lookupBytes (strBytes "name")
        (parse_options_header st.content_disposition).2 = none →
      processMessage charset st (.HEADERS_FINISHED, []) = .error .KeyError) ∧
    (∀ req, (parse_options_header (headerGet req.headers contentTypeKey)).1 =
        multipartFormData →
      MultiPartParser_parse req.headers req.chunks = .error .KeyError →
      populate_multipart_requests req = .error .KeyError) := by
  constructor
  · intro charset st h
    simp only [processMessage]
    rw [h]
  · intro req hct hp
    exact populate_of_parse_err req .KeyError hct (by decide) hp

/-- C2 witness: on the concrete body whose part has no `name` parameter, the caller
observes `KeyError`. -/
theorem missing_field_name_keyerror_witness :
    populate_multipart_requests { headers := ctXYZ, chunks := [bodyNoName] } =
      .error .KeyError :=
  (missing_field_name_keyerror).2 { headers := ctXYZ, chunks := [bodyNoName] }
    (by decide) (by decide)

/-- C2 counterexample: on a body with a missing field name the observed error is
`KeyError`, not the `BentoMLException` standing for `InvalidMultipartRequest` that the
claim states. -/
theorem missing_field_name_keyerror_cex :
    populate_multipart_requests { headers := ctXYZ, chunks := [bodyNoName] } =
      .error .KeyError ∧
    PyErr.KeyError ≠ PyErr.BentoMLException := by
  exact ⟨by decide, by decide⟩

/-- C7: a stream that ends with the decoder in a non-terminal state (truncated body)
makes the final `parser.finalize()` fail, and the caller of
`populate_multipart_requests` observes the `BentoMLException` standing for
`InvalidMultipartRequest` rather than a silently truncated result. -/
theorem truncated_stream_rejected (req : PyRequest) (boundary : Bytes)
    (dst : DecState) (pst : PState)
    (hct : (parse_options_header (headerGet req.headers contentTypeKey)).1 =
      multipartFormData)
    (hb : boundaryOf req.headers = some boundary)
    (hl : parseLoop boundary (charsetOf req.headers) (.start 0) {} req.chunks =
      .ok (dst, pst))
    (ht : isTerminal dst = false) :
    populate_multipart_requests req = .error .BentoMLException := by
  apply populate_of_parse_mpe req hct
  unfold MultiPartParser_parse parseChunksWith
  simp [hb, hl, ht, Except.map]

/-- C7 witness: the concrete truncated body (a valid header section for part 1, the
stream ends inside its payload) is rejected with the `BentoMLException`. -/
theorem truncated_stream_rejected_witness :
    populate_multipart_requests { headers := ctXYZ, chunks := [bodyTrunc] } =
      .error .BentoMLException :=
  truncated_stream_rejected { headers := ctXYZ, chunks := [bodyTrunc] }
    (strBytes "XYZ") (.partData [])
    { content_disposition := some (strBytes "form-data; name=\"f\"")
    , field_name := "f", data := strBytes "hel" }
    (by decide) (by decide) (by decide) (by decide)

/-- C8 (amended): a media type other than `multipart/form-data` fails the bare assert
and surfaces as `AssertionError` rather than the `InvalidMultipartRequest` error; an
absent boundary parameter makes decoding fail and surfaces as the `BentoMLException`;
otherwise the boundary is exactly the `boundary` parameter of the Content-Type header
and the charset defaults to `utf-8` when the `charset` parameter is absent. -/
theorem boundary_resolver_spec (req : PyRequest) :
    ((parse_options_header (headerGet req.headers contentTypeKey)).1 ≠
        multipartFormData →
      populate_multipart_requests req = .error .AssertionError) ∧
    ((parse_options_header (headerGet req.headers contentTypeKey)).1 =
        multipartFormData →
      boundaryOf req.headers = none →
      populate_multipart_requests req = .error .BentoMLException) ∧
    (lookupBytes (strBytes "charset") (ctParams req.headers) = none →
      charsetOf req.headers = strBytes "utf-8") ∧
    (∀ boundary, boundaryOf req.headers = some boundary →
      lookupBytes (strBytes "boundary") (ctParams req.headers) = some boundary) := by
  refine ⟨?_, ?_, ?_, ?_⟩
  · intro hct
    unfold populate_multipart_requests
    simp [hct]
  · intro hct hb
    apply populate_of_parse_mpe req hct
    unfold MultiPartParser_parse parseChunksWith
    simp [hb, Except.map]
  · intro h
    unfold charsetOf
    rw [h]
    rfl
  · intro boundary hb
    exact hb

/-- C8 witness: a multipart Content-Type without a boundary parameter is rejected with
the `BentoMLException`, and with no charset parameter the resolved charset is `utf-8`. -/
theorem boundary_resolver_spec_witness :
    populate_multipart_requests
        { headers := [(strBytes "content-type", strBytes "multipart/form-data")]
        , chunks := [bodyOnePart] } = .error .BentoMLException ∧
    charsetOf [(strBytes "content-type", strBytes "multipart/form-data")] =
      strBytes "utf-8" := by
  have h := boundary_resolver_spec
    { headers := [(strBytes "content-type", strBytes "multipart/form-data")]
    , chunks := [bodyOnePart] }
  exact ⟨h.2.1 (by decide) (by decide), h.2.2.1 (by decide)⟩

/-- C8 counterexample: for a non-multipart media type carrying a boundary parameter,
the parse path fails with `AssertionError`, not the `InvalidMultipartRequest` error
the claim states for `InvalidContentType`. -/
theorem boundary_resolver_spec_cex :
    populate_multipart_requests
        { headers := [(strBytes "content-type", strBytes "text/plain; boundary=XYZ")]
        , chunks := [bodyOnePart] } = .error .AssertionError ∧
    PyErr.AssertionError ≠ PyErr.BentoMLException := by
  exact ⟨by decide, by decide⟩

/-- C9: the returned item list is assembled only from the messages drained after each
chunk write; whatever messages `parser.finalize()` appends after the last chunk sit
undrained in the queue and contribute nothing to the result (in particular a PART_END
delivered only at finalization emits no item). -/
theorem finalize_events_unprocessed (finMsgs : List Msg) (hdrs : HeaderList)
    (chunks : List Bytes) :
    (parseChunksWith finMsgs hdrs chunks).map Prod.fst =
      MultiPartParser_parse hdrs chunks ∧
    (∀ items q, parseChunksWith finMsgs hdrs chunks = .ok (items, q) → q = finMsgs) := by
  constructor
  · unfold MultiPartParser_parse parseChunksWith
    split
    · rfl
    · split
      · rfl
      · split <;> rfl
  · intro items q h
    unfold parseChunksWith at h
    split at h
    · cases h
    · split at h
      · cases h
      · split at h
        · cases h
          rfl
        · cases h

/-- C9 witness: on the concrete one-part body with a PART_END appended at
finalization, the item list equals the one from an empty finalization queue while the
undrained queue still holds that PART_END. -/
theorem finalize_events_unprocessed_witness :
    (parseChunksWith [(MultiPartMessage.PART_END, [])] ctXYZ [bodyOnePart]).map
        Prod.fst =
      MultiPartParser_parse ctXYZ [bodyOnePart] ∧
    [(MultiPartMessage.PART_END, ([] : Bytes))] =
      [(MultiPartMessage.PART_END, ([] : Bytes))] := by
  have h := finalize_events_unprocessed [(MultiPartMessage.PART_END, [])] ctXYZ
    [bodyOnePart]
  refine ⟨h.1, ?_⟩
  exact h.2 [("file", [], strBytes "hello")] [(MultiPartMessage.PART_END, [])]
    (by decide)

end FormParser
